import Mathlib

/-!
Verification of the jsonxf JSON transformer (gamache/jsonxf).

This file gives a shallow embedding of the byte-oriented streaming
formatter from `src/jsonxf.rs` (the `Formatter` state machine, its
`format_buf` / `format_stream` driver loop, and the `pretty_printer`
and `minimizer` presets), and of the standalone two-argument
pretty-printer `pp` from `src/jsonpp.rs`.  Bytes are modelled as `Nat`
and byte strings as `List Nat`; a formatting run that would panic in
Rust (the unguarded `self.depth -= 1` on a `usize`, which underflows
when a closing bracket arrives at depth 0) is modelled as `none`.

Theorems below establish the chunk-splitting invariance of the
formatter, the record-separator behaviour, idempotence of `minimize`,
the minimize/pretty-print round trip, the empty-structure special
case, escape handling, string-content inertness, and the behaviour on
empty input.
-/

namespace Jsonxf

/-- Byte constant `'\r'` (from `src/jsonxf.rs`). -/
def C_CR : Nat := 13

/-- Byte constant `'\n'`. -/
def C_LF : Nat := 10

/-- Byte constant `'\t'`. -/
def C_TAB : Nat := 9

/-- Byte constant `' '`. -/
def C_SPACE : Nat := 32

/-- Byte constant `','`. -/
def C_COMMA : Nat := 44

/-- Byte constant `':'`. -/
def C_COLON : Nat := 58

/-- Byte constant `'"'`. -/
def C_QUOTE : Nat := 34

/-- Byte constant `'\\'`. -/
def C_BACKSLASH : Nat := 92

/-- Byte constant for the opening curly brace. -/
def C_LEFT_BRACE : Nat := 123

/-- Byte constant for the opening square bracket. -/
def C_LEFT_BRACKET : Nat := 91

/-- Byte constant for the closing curly brace. -/
def C_RIGHT_BRACE : Nat := 125

/-- Byte constant for the closing square bracket. -/
def C_RIGHT_BRACKET : Nat := 93

/-- The `Formatter` struct of `src/jsonxf.rs`: five public option
strings plus the private mutable state (`depth`, `in_string`,
`in_backslash`, `empty`, `first`). Option strings are byte lists. -/
structure Formatter where
  indent : List Nat
  line_separator : List Nat
  record_separator : List Nat
  after_colon : List Nat
  trailing_output : List Nat
  depth : Nat
  in_string : Bool
  in_backslash : Bool
  empty : Bool
  first : Bool
deriving DecidableEq

/-- The output of `for _ in 0..k { writer.write(ind) }`:
`ind` repeated `k` times. -/
def indentTimes (k : Nat) (ind : List Nat) : List Nat :=
  match k with
  | 0 => []
  | j + 1 => ind ++ indentTimes j ind

/-- Whitespace test used by the `C_SPACE | C_LF | C_CR | C_TAB` match
arm of `format_buf`. -/
def isWsByte (b : Nat) : Bool :=
  b = C_SPACE || b = C_LF || b = C_CR || b = C_TAB

/-- One step of the per-byte loop body of `Formatter::format_buf`
(`src/jsonxf.rs` lines 206-287): given the current state and one input
byte, return the updated state and the emitted bytes.  The unguarded
`self.depth -= 1` in the close-bracket arm underflows `usize` when
`depth == 0`; that arithmetic overflow (a panic under Rust's checked
arithmetic) is modelled as `none`. -/
def formatByte (f : Formatter) (b : Nat) : Option (Formatter × List Nat) :=
  if f.in_string then
    if f.in_backslash then
      some ({ f with in_backslash := false }, [b])
    else if b = C_QUOTE then
      some ({ f with in_string := false }, [b])
    else if b = C_BACKSLASH then
      some ({ f with in_backslash := true }, [b])
    else
      some (f, [b])
  else if isWsByte b then
    some (f, [])
  else if b = C_LEFT_BRACKET || b = C_LEFT_BRACE then
    if f.first then
      some ({ f with first := false, depth := f.depth + 1, empty := true }, [b])
    else if f.empty then
      some ({ f with depth := f.depth + 1, empty := true },
            f.line_separator ++ indentTimes f.depth f.indent ++ [b])
    else if f.depth = 0 then
      some ({ f with depth := f.depth + 1, empty := true },
            f.record_separator ++ [b])
    else
      some ({ f with depth := f.depth + 1, empty := true }, [b])
  else if b = C_RIGHT_BRACKET || b = C_RIGHT_BRACE then
    match f.depth with
    | 0 => none
    | d + 1 =>
      if f.empty then
        some ({ f with depth := d, empty := false }, [b])
      else
        some ({ f with depth := d },
              f.line_separator ++ indentTimes d f.indent ++ [b])
  else if b = C_COMMA then
    some (f, [b] ++ f.line_separator ++ indentTimes f.depth f.indent)
  else if b = C_COLON then
    some (f, [b] ++ f.after_colon)
  else
    if f.empty then
      if b = C_QUOTE then
        some ({ f with empty := false, in_string := true },
              f.line_separator ++ indentTimes f.depth f.indent ++ [b])
      else
        some ({ f with empty := false },
              f.line_separator ++ indentTimes f.depth f.indent ++ [b])
    else
      if b = C_QUOTE then
        some ({ f with in_string := true }, [b])
      else
        some (f, [b])

/-- `Formatter::format_buf`: run `formatByte` over every byte of the
buffer, concatenating the emitted output. -/
def format_buf (f : Formatter) (buf : List Nat) : Option (Formatter × List Nat) :=
  match buf with
  | [] => some (f, [])
  | b :: rest =>
    match formatByte f b with
    | none => none
    | some (f1, o1) =>
      match format_buf f1 rest with
      | none => none
      | some (f2, o2) => some (f2, o1 ++ o2)

/-- `Formatter::format_stream`: feed the whole input through
`format_buf`, then append `trailing_output`. -/
def format_stream (f : Formatter) (input : List Nat) : Option (List Nat) :=
  match format_buf f input with
  | none => none
  | some (f1, out) => some (out ++ f1.trailing_output)

/-- `Formatter::default` (`src/jsonxf.rs` lines 82-95): two-space
indent, newline line and record separators, one space after colons,
empty trailing output, fresh state. -/
def Formatter.default : Formatter :=
  { indent := [C_SPACE, C_SPACE]
    line_separator := [C_LF]
    record_separator := [C_LF]
    after_colon := [C_SPACE]
    trailing_output := []
    depth := 0
    in_string := false
    in_backslash := false
    empty := false
    first := true }

/-- `Formatter::pretty_printer`. -/
def pretty_printer : Formatter := Formatter.default

/-- `Formatter::minimizer`: empty indent, line separator and
after-colon strings; newline record separator. -/
def minimizer : Formatter :=
  { Formatter.default with
    indent := []
    line_separator := []
    after_colon := [] }

/-- Top-level `jsonxf::minimize`. -/
def minimize (input : List Nat) : Option (List Nat) :=
  format_stream minimizer input

/-- Top-level `jsonxf::pretty_print`. -/
def pretty_print (input : List Nat) : Option (List Nat) :=
  format_stream pretty_printer input

/-- Mutable state of the standalone pretty-printer `pp` in
`src/jsonpp.rs`. -/
structure PpState where
  in_string : Bool
  in_backslash : Bool
  depth : Nat
  whitespace_buffer : List Nat
  current_structure_is_empty : Bool
deriving DecidableEq

/-- One step of the per-byte loop of `jsonpp::pp` (`src/jsonpp.rs`
lines 20-89), parameterised by the indent string.  As for
`formatByte`, the unguarded `depth -= 1` at depth 0 is modelled as
`none`.  After emitting a closing bracket that returns to depth 0,
`pp` additionally emits a newline. -/
def ppByte (ind : List Nat) (s : PpState) (b : Nat) : Option (PpState × List Nat) :=
  if s.in_string then
    if s.in_backslash then
      some ({ s with in_backslash := false }, [b])
    else if b = C_QUOTE then
      some ({ s with in_string := false }, [b])
    else if b = C_BACKSLASH then
      some ({ s with in_backslash := true }, [b])
    else
      some (s, [b])
  else if b = C_SPACE || b = C_TAB || b = C_LF || b = C_CR then
    some (s, [])
  else if b = C_LEFT_BRACE || b = C_LEFT_BRACKET then
    some ({ s with
            depth := s.depth + 1
            current_structure_is_empty := true
            whitespace_buffer := [C_LF] ++ indentTimes (s.depth + 1) ind }, [b])
  else if b = C_RIGHT_BRACE || b = C_RIGHT_BRACKET then
    match s.depth with
    | 0 => none
    | d + 1 =>
      if s.current_structure_is_empty then
        some ({ s with depth := d, current_structure_is_empty := false },
              [b] ++ (if d = 0 then [C_LF] else []))
      else
        some ({ s with depth := d },
              [C_LF] ++ indentTimes d ind ++ [b] ++ (if d = 0 then [C_LF] else []))
  else if b = C_COMMA then
    some (s, [b, C_LF] ++ indentTimes s.depth ind)
  else if b = C_COLON then
    some (s, [C_COLON, C_SPACE])
  else
    if s.current_structure_is_empty then
      if b = C_QUOTE then
        some ({ s with current_structure_is_empty := false, in_string := true },
              s.whitespace_buffer ++ [b])
      else
        some ({ s with current_structure_is_empty := false },
              s.whitespace_buffer ++ [b])
    else
      if b = C_QUOTE then
        some ({ s with in_string := true }, [b])
      else
        some (s, [b])

/-- Run `ppByte` over a whole buffer. -/
def ppBuf (ind : List Nat) (s : PpState) (buf : List Nat) : Option (PpState × List Nat) :=
  match buf with
  | [] => some (s, [])
  | b :: rest =>
    match ppByte ind s b with
    | none => none
    | some (s1, o1) =>
      match ppBuf ind s1 rest with
      | none => none
      | some (s2, o2) => some (s2, o1 ++ o2)

/-- `jsonpp::pp`: the two-argument pretty-printer, started from a
fresh state. -/
def pp (input : List Nat) (ind : List Nat) : Option (List Nat) :=
  match ppBuf ind
      { in_string := false, in_backslash := false, depth := 0,
        whitespace_buffer := [], current_structure_is_empty := false } input with
  | none => none
  | some (_, out) => some out

end Jsonxf

namespace Jsonxf

/-- Processing a concatenation of two buffers equals processing them in
sequence, threading the state and concatenating the outputs. -/
theorem format_buf_append (f : Formatter) (a b : List Nat) :
    format_buf f (a ++ b) =
      match format_buf f a with
      | none => none
      | some (f1, o1) =>
        match format_buf f1 b with
        | none => none
        | some (f2, o2) => some (f2, o1 ++ o2) := by
  induction a generalizing f with
  | nil =>
    cases h : format_buf f b with
    | none => simp [format_buf, h]
    | some p =>
      obtain ⟨f2, o2⟩ := p
      simp [format_buf, h]
  | cons x xs ih =>
    cases hx : formatByte f x with
    | none => simp [format_buf, hx]
    | some p =>
      obtain ⟨f1, o1⟩ := p
      cases h1 : format_buf f1 xs with
      | none => simp [format_buf, hx, ih f1, h1]
      | some q =>
        obtain ⟨f2, o2⟩ := q
        cases h2 : format_buf f2 b with
        | none => simp [format_buf, hx, ih f1, h1, h2]
        | some r =>
          obtain ⟨f3, o3⟩ := r
          simp [format_buf, hx, ih f1, h1, h2]

/-- A single byte processed through `format_buf` is just `formatByte`. -/
theorem format_buf_single {f : Formatter} {b : Nat} {g1 : Formatter} {z : List Nat}
    (h : formatByte f b = some (g1, z)) :
    format_buf f [b] = some (g1, z) := by
  simp [format_buf, h]

/-- All bytes of `w` are whitespace. -/
def WsList (w : List Nat) : Prop := ∀ b ∈ w, isWsByte b = true

/-- `WsList` is closed under append. -/
theorem wsList_append {u v : List Nat} (hu : WsList u) (hv : WsList v) :
    WsList (u ++ v) := by
  intro b hb
  rcases List.mem_append.mp hb with h | h
  · exact hu b h
  · exact hv b h

/-- A whitespace indent repeated any number of times is whitespace. -/
theorem wsList_indentTimes {ind : List Nat} (h : WsList ind) (k : Nat) :
    WsList (indentTimes k ind) := by
  induction k with
  | zero => intro b hb; simp [indentTimes] at hb
  | succ j ih =>
    intro b hb
    rcases List.mem_append.mp hb with h1 | h1
    · exact h b h1
    · exact ih b h1

/-- Outside a string literal, whitespace bytes are consumed with no
output and no state change. -/
theorem format_buf_ws {f : Formatter} {w : List Nat} (hs : f.in_string = false)
    (hw : WsList w) : format_buf f w = some (f, []) := by
  induction w with
  | nil => rfl
  | cons b rest ih =>
    have hb : isWsByte b = true := hw b (List.mem_cons_self b rest)
    have hrest : WsList rest := fun c hc => hw c (List.mem_cons_of_mem _ hc)
    have hstep : formatByte f b = some (f, []) := by
      unfold formatByte
      rw [hs]
      simp [hb]
    simp [format_buf, hstep, ih hrest]

/-- Skipping a whitespace prelude outside a string leaves the run
unchanged. -/
theorem format_buf_ws_then {f : Formatter} {w rest : List Nat}
    (hs : f.in_string = false) (hw : WsList w) :
    format_buf f (w ++ rest) = format_buf f rest := by
  rw [format_buf_append, format_buf_ws hs hw]
  cases h : format_buf f rest with
  | none => simp [h]
  | some p =>
    obtain ⟨f2, o2⟩ := p
    simp [h]

/-- Two whitespace preludes followed by a single byte. -/
theorem format_buf_ws_ws_byte {f : Formatter} {w1 w2 : List Nat} {b : Nat}
    {g1 : Formatter} {z : List Nat} (hs : f.in_string = false)
    (h1 : WsList w1) (h2 : WsList w2) (hb : formatByte f b = some (g1, z)) :
    format_buf f (w1 ++ (w2 ++ [b])) = some (g1, z) := by
  rw [format_buf_ws_then hs h1, format_buf_ws_then hs h2]
  exact format_buf_single hb

/-- One byte followed by a whitespace tail (the byte must leave the
state outside a string). -/
theorem format_buf_byte_then_ws {f : Formatter} {b : Nat} {g1 : Formatter}
    {z w : List Nat} (h : formatByte f b = some (g1, z))
    (h1 : g1.in_string = false) (hw : WsList w) :
    format_buf f (b :: w) = some (g1, z) := by
  simp [format_buf, h, format_buf_ws h1 hw]

/-- C1: chunk boundaries are not meaningful: processing chunk `a` and
then chunk `b` from any formatter state produces exactly the same
output and final state as processing the concatenation `a ++ b` in one
call (and a panic propagates identically). -/
theorem format_buf_chunk_split (f : Formatter) (a b : List Nat) :
    format_buf f (a ++ b) =
      match format_buf f a with
      | none => none
      | some (f1, o1) =>
        match format_buf f1 b with
        | none => none
        | some (f2, o2) => some (f2, o1 ++ o2) :=
  format_buf_append f a b

/-- The five core state fields of two formatters agree (their option
strings may differ). -/
def Sync (f g : Formatter) : Prop :=
  g.depth = f.depth ∧ g.in_string = f.in_string ∧ g.in_backslash = f.in_backslash ∧
  g.empty = f.empty ∧ g.first = f.first

/-- All four separator option strings consist of whitespace bytes
(true of both presets). -/
def WsOpts (f : Formatter) : Prop :=
  WsList f.indent ∧ WsList f.line_separator ∧ WsList f.record_separator ∧
  WsList f.after_colon

/-- Replay, one byte: if `f` (whose option strings are whitespace)
consumes `b` emitting `o`, then any core-synchronised formatter `g`
consumes `b` emitting some `z`, stays core-synchronised, and `g`
applied to `f`'s output `o` also produces exactly `z` with the same
final state. -/
theorem formatByte_replay {f g f1 : Formatter} {b : Nat} {o : List Nat}
    (hws : WsOpts f) (hsync : Sync f g)
    (h : formatByte f b = some (f1, o)) :
    ∃ g1 z, formatByte g b = some (g1, z) ∧ Sync f1 g1 ∧
      format_buf g o = some (g1, z) := by
  obtain ⟨hwi, hwl, hwr, hwa⟩ := hws
  obtain ⟨hd, hstr, hbk, hemp, hfst⟩ := hsync
  obtain ⟨fi, fl, fr, fa, ft, fd, fs, fb, fe, ff⟩ := f
  obtain ⟨gi, gl, gr, ga, gt, gd, gs, gb, ge, gf⟩ := g
  simp only at hd hstr hbk hemp hfst hwi hwl hwr hwa
  subst hd hstr hbk hemp hfst
  cases gs with
  | true =>
    cases gb with
    | true =>
      simp [formatByte] at h
      obtain ⟨rfl, rfl⟩ := h
      refine ⟨⟨gi, gl, gr, ga, gt, gd, true, false, ge, gf⟩, [b], ?_, ?_, ?_⟩
      · simp [formatByte]
      · exact ⟨rfl, rfl, rfl, rfl, rfl⟩
      · exact format_buf_single (by simp [formatByte])
    | false =>
      by_cases hq : b = C_QUOTE
      · subst hq
        simp [formatByte] at h
        obtain ⟨rfl, rfl⟩ := h
        refine ⟨⟨gi, gl, gr, ga, gt, gd, false, false, ge, gf⟩, [C_QUOTE], ?_, ?_, ?_⟩
        · simp [formatByte]
        · exact ⟨rfl, rfl, rfl, rfl, rfl⟩
        · exact format_buf_single (by simp [formatByte])
      · by_cases hbs : b = C_BACKSLASH
        · subst hbs
          simp [formatByte, C_BACKSLASH, C_QUOTE] at h
          obtain ⟨rfl, rfl⟩ := h
          refine ⟨⟨gi, gl, gr, ga, gt, gd, true, true, ge, gf⟩, [C_BACKSLASH], ?_, ?_, ?_⟩
          · simp [formatByte, C_BACKSLASH, C_QUOTE]
          · exact ⟨rfl, rfl, rfl, rfl, rfl⟩
          · exact format_buf_single (by simp [formatByte, C_BACKSLASH, C_QUOTE])
        · simp [formatByte, hq, hbs] at h
          obtain ⟨rfl, rfl⟩ := h
          refine ⟨⟨gi, gl, gr, ga, gt, gd, true, false, ge, gf⟩, [b], ?_, ?_, ?_⟩
          · simp [formatByte, hq, hbs]
          · exact ⟨rfl, rfl, rfl, rfl, rfl⟩
          · exact format_buf_single (by simp [formatByte, hq, hbs])
  | false =>
    cases hwb : isWsByte b with
    | true =>
      simp [formatByte, hwb] at h
      obtain ⟨rfl, rfl⟩ := h
      refine ⟨⟨gi, gl, gr, ga, gt, gd, false, gb, ge, gf⟩, [], ?_, ?_, ?_⟩
      · simp [formatByte, hwb]
      · exact ⟨rfl, rfl, rfl, rfl, rfl⟩
      · rfl
    | false =>
      by_cases hob : b = C_LEFT_BRACKET ∨ b = C_LEFT_BRACE
      · -- open bracket
        cases gf with
        | true =>
          simp [formatByte, hwb, hob] at h
          obtain ⟨rfl, rfl⟩ := h
          refine ⟨⟨gi, gl, gr, ga, gt, gd + 1, false, gb, true, false⟩, [b], ?_, ?_, ?_⟩
          · simp [formatByte, hwb, hob]
          · exact ⟨rfl, rfl, rfl, rfl, rfl⟩
          · exact format_buf_single (by simp [formatByte, hwb, hob])
        | false =>
          cases ge with
          | true =>
            simp [formatByte, hwb, hob] at h
            obtain ⟨rfl, rfl⟩ := h
            refine ⟨⟨gi, gl, gr, ga, gt, gd + 1, false, gb, true, false⟩,
                    gl ++ (indentTimes gd gi ++ [b]), ?_, ?_, ?_⟩
            · simp [formatByte, hwb, hob]
            · exact ⟨rfl, rfl, rfl, rfl, rfl⟩
            · exact format_buf_ws_ws_byte rfl hwl (wsList_indentTimes hwi gd)
                (by simp [formatByte, hwb, hob])
          | false =>
            cases gd with
            | zero =>
              simp [formatByte, hwb, hob] at h
              obtain ⟨rfl, rfl⟩ := h
              refine ⟨⟨gi, gl, gr, ga, gt, 1, false, gb, true, false⟩,
                      gr ++ [b], ?_, ?_, ?_⟩
              · simp [formatByte, hwb, hob]
              · exact ⟨rfl, rfl, rfl, rfl, rfl⟩
              · rw [format_buf_ws_then rfl hwr]
                exact format_buf_single (by simp [formatByte, hwb, hob])
            | succ d =>
              simp [formatByte, hwb, hob] at h
              obtain ⟨rfl, rfl⟩ := h
              refine ⟨⟨gi, gl, gr, ga, gt, d + 2, false, gb, true, false⟩, [b], ?_, ?_, ?_⟩
              · simp [formatByte, hwb, hob]
              · exact ⟨rfl, rfl, rfl, rfl, rfl⟩
              · exact format_buf_single (by simp [formatByte, hwb, hob])
      · by_cases hcb : b = C_RIGHT_BRACKET ∨ b = C_RIGHT_BRACE
        · -- close bracket
          cases gd with
          | zero => simp [formatByte, hwb, hob, hcb] at h
          | succ d =>
            cases ge with
            | true =>
              simp [formatByte, hwb, hob, hcb] at h
              obtain ⟨rfl, rfl⟩ := h
              refine ⟨⟨gi, gl, gr, ga, gt, d, false, gb, false, gf⟩, [b], ?_, ?_, ?_⟩
              · simp [formatByte, hwb, hob, hcb]
              · exact ⟨rfl, rfl, rfl, rfl, rfl⟩
              · exact format_buf_single (by simp [formatByte, hwb, hob, hcb])
            | false =>
              simp [formatByte, hwb, hob, hcb] at h
              obtain ⟨rfl, rfl⟩ := h
              refine ⟨⟨gi, gl, gr, ga, gt, d, false, gb, false, gf⟩,
                      gl ++ (indentTimes d gi ++ [b]), ?_, ?_, ?_⟩
              · simp [formatByte, hwb, hob, hcb]
              · exact ⟨rfl, rfl, rfl, rfl, rfl⟩
              · exact format_buf_ws_ws_byte rfl hwl (wsList_indentTimes hwi d)
                  (by simp [formatByte, hwb, hob, hcb])
        · by_cases hcm : b = C_COMMA
          · subst hcm
            simp [formatByte, hwb, hob, hcb] at h
            obtain ⟨rfl, rfl⟩ := h
            refine ⟨⟨gi, gl, gr, ga, gt, gd, false, gb, ge, gf⟩,
                    C_COMMA :: (gl ++ indentTimes gd gi), ?_, ?_, ?_⟩
            · simp [formatByte, hwb, hob, hcb]
            · exact ⟨rfl, rfl, rfl, rfl, rfl⟩
            · exact format_buf_byte_then_ws (by simp [formatByte, hwb, hob, hcb]) rfl
                (wsList_append hwl (wsList_indentTimes hwi gd))
          · by_cases hcl : b = C_COLON
            · subst hcl
              simp [formatByte, hwb, hob, hcb, hcm] at h
              obtain ⟨rfl, rfl⟩ := h
              refine ⟨⟨gi, gl, gr, ga, gt, gd, false, gb, ge, gf⟩,
                      C_COLON :: ga, ?_, ?_, ?_⟩
              · simp [formatByte, hwb, hob, hcb, hcm]
              · exact ⟨rfl, rfl, rfl, rfl, rfl⟩
              · exact format_buf_byte_then_ws (by simp [formatByte, hwb, hob, hcb, hcm])
                  rfl hwa
            · -- any other byte
              cases ge with
              | true =>
                by_cases hq : b = C_QUOTE
                · subst hq
                  simp [formatByte, hwb, hob, hcb, hcm, hcl] at h
                  obtain ⟨rfl, rfl⟩ := h
                  refine ⟨⟨gi, gl, gr, ga, gt, gd, true, gb, false, gf⟩,
                          gl ++ (indentTimes gd gi ++ [C_QUOTE]), ?_, ?_, ?_⟩
                  · simp [formatByte, hwb, hob, hcb, hcm, hcl]
                  · exact ⟨rfl, rfl, rfl, rfl, rfl⟩
                  · exact format_buf_ws_ws_byte rfl hwl (wsList_indentTimes hwi gd)
                      (by simp [formatByte, hwb, hob, hcb, hcm, hcl])
                · simp [formatByte, hwb, hob, hcb, hcm, hcl, hq] at h
                  obtain ⟨rfl, rfl⟩ := h
                  refine ⟨⟨gi, gl, gr, ga, gt, gd, false, gb, false, gf⟩,
                          gl ++ (indentTimes gd gi ++ [b]), ?_, ?_, ?_⟩
                  · simp [formatByte, hwb, hob, hcb, hcm, hcl, hq]
                  · exact ⟨rfl, rfl, rfl, rfl, rfl⟩
                  · exact format_buf_ws_ws_byte rfl hwl (wsList_indentTimes hwi gd)
                      (by simp [formatByte, hwb, hob, hcb, hcm, hcl, hq])
              | false =>
                by_cases hq : b = C_QUOTE
                · subst hq
                  simp [formatByte, hwb, hob, hcb, hcm, hcl] at h
                  obtain ⟨rfl, rfl⟩ := h
                  refine ⟨⟨gi, gl, gr, ga, gt, gd, true, gb, false, gf⟩, [C_QUOTE], ?_, ?_, ?_⟩
                  · simp [formatByte, hwb, hob, hcb, hcm, hcl]
                  · exact ⟨rfl, rfl, rfl, rfl, rfl⟩
                  · exact format_buf_single (by simp [formatByte, hwb, hob, hcb, hcm, hcl])
                · simp [formatByte, hwb, hob, hcb, hcm, hcl, hq] at h
                  obtain ⟨rfl, rfl⟩ := h
                  refine ⟨⟨gi, gl, gr, ga, gt, gd, false, gb, false, gf⟩, [b], ?_, ?_, ?_⟩
                  · simp [formatByte, hwb, hob, hcb, hcm, hcl, hq]
                  · exact ⟨rfl, rfl, rfl, rfl, rfl⟩
                  · exact format_buf_single (by simp [formatByte, hwb, hob, hcb, hcm, hcl, hq])

/-- A formatting step never modifies the five option strings. -/
theorem formatByte_opts {f f1 : Formatter} {b : Nat} {o : List Nat}
    (h : formatByte f b = some (f1, o)) :
    f1.indent = f.indent ∧ f1.line_separator = f.line_separator ∧
    f1.record_separator = f.record_separator ∧ f1.after_colon = f.after_colon ∧
    f1.trailing_output = f.trailing_output := by
  unfold formatByte at h
  repeat' split at h
  all_goals
    first
      | (simp only [Option.some.injEq, Prod.mk.injEq] at h
         obtain ⟨h1, h2⟩ := h
         subst h1
         exact ⟨rfl, rfl, rfl, rfl, rfl⟩)
      | simp at h

/-- Option strings are preserved across a whole buffer. -/
theorem format_buf_opts {x : List Nat} {f f1 : Formatter} {o : List Nat}
    (h : format_buf f x = some (f1, o)) :
    f1.indent = f.indent ∧ f1.line_separator = f.line_separator ∧
    f1.record_separator = f.record_separator ∧ f1.after_colon = f.after_colon ∧
    f1.trailing_output = f.trailing_output := by
  induction x generalizing f o with
  | nil =>
    simp [format_buf] at h
    obtain ⟨rfl, rfl⟩ := h
    exact ⟨rfl, rfl, rfl, rfl, rfl⟩
  | cons b rest ih =>
    cases hb : formatByte f b with
    | none => simp [format_buf, hb] at h
    | some p =>
      obtain ⟨fm, o1⟩ := p
      cases hr : format_buf fm rest with
      | none => simp [format_buf, hb, hr] at h
      | some q =>
        obtain ⟨f2, o2⟩ := q
        simp [format_buf, hb, hr] at h
        obtain ⟨rfl, rfl⟩ := h
        obtain ⟨a1, a2, a3, a4, a5⟩ := formatByte_opts hb
        obtain ⟨b1, b2, b3, b4, b5⟩ := ih hr
        exact ⟨b1.trans a1, b2.trans a2, b3.trans a3, b4.trans a4, b5.trans a5⟩

/-- Replay, whole buffer: if `f` (whitespace option strings) maps
input `x` to output `y`, then any core-synchronised `g` maps both `x`
and `y` to one and the same output `z`, ending core-synchronised with
`f`'s final state. -/
theorem format_buf_replay {x : List Nat} {f g f1 : Formatter} {y : List Nat}
    (hws : WsOpts f) (hsync : Sync f g)
    (h : format_buf f x = some (f1, y)) :
    ∃ g1 z, format_buf g x = some (g1, z) ∧ Sync f1 g1 ∧
      format_buf g y = some (g1, z) := by
  induction x generalizing f g f1 y with
  | nil =>
    simp [format_buf] at h
    obtain ⟨rfl, rfl⟩ := h
    exact ⟨g, [], rfl, hsync, rfl⟩
  | cons b rest ih =>
    cases hb : formatByte f b with
    | none => simp [format_buf, hb] at h
    | some p =>
      obtain ⟨fa, o1⟩ := p
      cases hr : format_buf fa rest with
      | none => simp [format_buf, hb, hr] at h
      | some q =>
        obtain ⟨f2, o2⟩ := q
        simp [format_buf, hb, hr] at h
        obtain ⟨rfl, rfl⟩ := h
        obtain ⟨ga, z1, hgb, hsync1, hrun1⟩ := formatByte_replay hws hsync hb
        have hws1 : WsOpts fa := by
          obtain ⟨a1, a2, a3, a4, _⟩ := formatByte_opts hb
          exact ⟨a1 ▸ hws.1, a2 ▸ hws.2.1, a3 ▸ hws.2.2.1, a4 ▸ hws.2.2.2⟩
        obtain ⟨g1, z2, hgr, hsync2, hrun2⟩ := ih hws1 hsync1 hr
        refine ⟨g1, z1 ++ z2, ?_, hsync2, ?_⟩
        · simp [format_buf, hgb, hgr]
        · rw [format_buf_append]
          simp [hrun1, hrun2]

/-- Membership in a concrete list of whitespace bytes, by evaluation. -/
theorem wsList_of_all {w : List Nat} (h : List.all w isWsByte = true) :
    WsList w :=
  fun b hb => List.all_eq_true.mp h b hb

/-- The minimizer preset inserts only whitespace. -/
theorem wsOpts_minimizer : WsOpts minimizer :=
  ⟨wsList_of_all (by decide), wsList_of_all (by decide),
   wsList_of_all (by decide), wsList_of_all (by decide)⟩

/-- The pretty-printer preset inserts only whitespace. -/
theorem wsOpts_pretty : WsOpts pretty_printer :=
  ⟨wsList_of_all (by decide), wsList_of_all (by decide),
   wsList_of_all (by decide), wsList_of_all (by decide)⟩

/-- `Sync` is reflexive. -/
theorem sync_refl (f : Formatter) : Sync f f := ⟨rfl, rfl, rfl, rfl, rfl⟩

/-- The two presets start with identical core state. -/
theorem sync_min_pretty : Sync minimizer pretty_printer :=
  ⟨rfl, rfl, rfl, rfl, rfl⟩

/-- The two presets start with identical core state (other order). -/
theorem sync_pretty_min : Sync pretty_printer minimizer :=
  ⟨rfl, rfl, rfl, rfl, rfl⟩

/-- C5: minimization is idempotent: re-minimizing the output of
`minimize` returns that output unchanged, for every input on which
`minimize` succeeds (in particular every valid JSON input). -/
theorem minimize_idempotent (x : List Nat) :
    Option.bind (minimize x) minimize = minimize x := by
  cases hx : format_buf minimizer x with
  | none => simp [minimize, format_stream, hx]
  | some p =>
    obtain ⟨f1, y⟩ := p
    have htrail : f1.trailing_output = [] := (format_buf_opts hx).2.2.2.2
    obtain ⟨g1, z, hgx, hsync, hgy⟩ :=
      format_buf_replay wsOpts_minimizer (sync_refl minimizer) hx
    rw [hx] at hgx
    simp at hgx
    obtain ⟨rfl, rfl⟩ := hgx
    have hmx : minimize x = some y := by
      simp [minimize, format_stream, hx, htrail]
    have hmy : minimize y = some y := by
      simp [minimize, format_stream, hgy, htrail]
    simp [hmx, hmy]

/-- C6: minimizing, then pretty-printing, then minimizing again
equals minimizing once, for every input on which `minimize` succeeds
(in particular every valid JSON input). -/
theorem minimize_pretty_print_roundtrip (x : List Nat) :
    Option.bind (Option.bind (minimize x) pretty_print) minimize = minimize x := by
  cases hx : format_buf minimizer x with
  | none => simp [minimize, format_stream, hx]
  | some p =>
    obtain ⟨m1, y⟩ := p
    have htrail : m1.trailing_output = [] := (format_buf_opts hx).2.2.2.2
    have hmx : minimize x = some y := by
      simp [minimize, format_stream, hx, htrail]
    obtain ⟨p1, z, hpx, hsync1, hpy⟩ :=
      format_buf_replay wsOpts_minimizer sync_min_pretty hx
    have hptrail : p1.trailing_output = [] := (format_buf_opts hpx).2.2.2.2
    have hpp : pretty_print y = some z := by
      simp [pretty_print, format_stream, hpy, hptrail]
    obtain ⟨g1, w, hgx, hsync2, hgz⟩ :=
      format_buf_replay wsOpts_pretty sync_pretty_min hpx
    rw [hx] at hgx
    simp at hgx
    obtain ⟨rfl, rfl⟩ := hgx
    have hmz : minimize z = some y := by
      simp [minimize, format_stream, hgz, htrail]
    simp [hmx, hpp, hmz]

/-- C2: minimizing a concatenation of root-level records emits the
record separator between adjacent records and none trailing; in
general, an open bracket arriving at depth 0 outside a string, with
`first` and `empty` clear, emits `record_separator` before the
bracket. -/
theorem minimize_record_separator :
    minimize [C_LEFT_BRACE, C_QUOTE, 97, C_QUOTE, C_COLON, 49, C_RIGHT_BRACE,
              C_LEFT_BRACE, C_QUOTE, 98, C_QUOTE, C_COLON, 50, C_RIGHT_BRACE] =
      some [C_LEFT_BRACE, C_QUOTE, 97, C_QUOTE, C_COLON, 49, C_RIGHT_BRACE, C_LF,
            C_LEFT_BRACE, C_QUOTE, 98, C_QUOTE, C_COLON, 50, C_RIGHT_BRACE] ∧
    minimize [C_LEFT_BRACE, C_QUOTE, 97, C_QUOTE, C_COLON, 49, C_RIGHT_BRACE,
              C_LEFT_BRACE, C_QUOTE, 98, C_QUOTE, C_COLON, 50, C_RIGHT_BRACE,
              C_LEFT_BRACE, C_QUOTE, 99, C_QUOTE, C_COLON, 51, C_RIGHT_BRACE] =
      some [C_LEFT_BRACE, C_QUOTE, 97, C_QUOTE, C_COLON, 49, C_RIGHT_BRACE, C_LF,
            C_LEFT_BRACE, C_QUOTE, 98, C_QUOTE, C_COLON, 50, C_RIGHT_BRACE, C_LF,
            C_LEFT_BRACE, C_QUOTE, 99, C_QUOTE, C_COLON, 51, C_RIGHT_BRACE] ∧
    ∀ (f : Formatter) (b : Nat), f.in_string = false → f.first = false →
      f.empty = false → f.depth = 0 → b = C_LEFT_BRACKET ∨ b = C_LEFT_BRACE →
      formatByte f b = some ({ f with depth := 1, empty := true },
        f.record_separator ++ [b]) := by
  refine ⟨by decide, by decide, ?_⟩
  intro f b h1 h2 h3 h4 h5
  have hnw : isWsByte b = false := by
    rcases h5 with h | h <;> subst h <;> decide
  simp [formatByte, h1, h2, h3, h4, hnw, h5]

/-- Witness for the record-separator transition of
`minimize_record_separator`, at the minimizer state with `first`
cleared and an open brace. -/
theorem minimize_record_separator_witness :
    formatByte { minimizer with first := false } C_LEFT_BRACE =
      some ({ { minimizer with first := false } with depth := 1, empty := true },
            ({ minimizer with first := false } : Formatter).record_separator ++
              [C_LEFT_BRACE]) :=
  minimize_record_separator.2.2 { minimizer with first := false } C_LEFT_BRACE
    rfl rfl rfl rfl (Or.inr rfl)

/-- C3, evaluated at the failing input: a closing bracket arriving at
depth 0 reaches the unguarded `depth -= 1`, which underflows `usize`
(modelled as `none`): the formatter fails on a bare `]` or `}` instead
of saturating or guarding the decrement. -/
theorem close_bracket_depth0_underflow :
    minimize [C_RIGHT_BRACKET] = none ∧
    formatByte minimizer C_RIGHT_BRACKET = none ∧
    pretty_print [C_RIGHT_BRACE] = none := by decide

/-- C4: the two-argument pretty-printer `pp` of `src/jsonpp.rs`, with
a single tab as indent, maps `[1,2,3]` to exactly
`[`, LF, TAB, `1,`, LF, TAB, `2,`, LF, TAB, `3`, LF, `]`, LF — with a
trailing newline after the closing bracket. -/
theorem pp_bracket_list_tab :
    pp [C_LEFT_BRACKET, 49, C_COMMA, 50, C_COMMA, 51, C_RIGHT_BRACKET] [C_TAB] =
      some [C_LEFT_BRACKET, C_LF, C_TAB, 49, C_COMMA, C_LF, C_TAB, 50, C_COMMA,
            C_LF, C_TAB, 51, C_LF, C_RIGHT_BRACKET, C_LF] := by decide

/-- C7: pretty-printing `{ }` yields `{}` with no interior whitespace,
and `[ ]` yields `[]`. -/
theorem pretty_print_empty_structures :
    pretty_print [C_LEFT_BRACE, C_SPACE, C_RIGHT_BRACE] =
      some [C_LEFT_BRACE, C_RIGHT_BRACE] ∧
    pretty_print [C_LEFT_BRACKET, C_SPACE, C_RIGHT_BRACKET] =
      some [C_LEFT_BRACKET, C_RIGHT_BRACKET] := by decide

/-- C8: backslash-escape tracking preserves quote parity: the object
whose value string contains an escaped backslash followed by an
escaped quote (bytes of the JSON text with value `"a\\\"b"`)
minimizes to itself unchanged. -/
theorem minimize_escaped_backslash_quote :
    minimize [C_LEFT_BRACE, C_QUOTE, 107, C_QUOTE, C_COLON, C_QUOTE, 97,
              C_BACKSLASH, C_BACKSLASH, C_BACKSLASH, C_QUOTE, 98, C_QUOTE,
              C_RIGHT_BRACE] =
      some [C_LEFT_BRACE, C_QUOTE, 107, C_QUOTE, C_COLON, C_QUOTE, 97,
            C_BACKSLASH, C_BACKSLASH, C_BACKSLASH, C_QUOTE, 98, C_QUOTE,
            C_RIGHT_BRACE] := by decide

/-- C9: while `in_string` is true, every byte is emitted verbatim as
the sole output, and no state besides the string-tracking flags
changes: `depth`, `empty`, `first` and all option strings are
untouched. -/
theorem in_string_byte_inert (f : Formatter) (b : Nat) (h : f.in_string = true) :
    ∃ f1 : Formatter, formatByte f b = some (f1, [b]) ∧
      f1.depth = f.depth ∧ f1.empty = f.empty ∧ f1.first = f.first ∧
      f1.indent = f.indent ∧ f1.line_separator = f.line_separator ∧
      f1.record_separator = f.record_separator ∧
      f1.after_colon = f.after_colon ∧
      f1.trailing_output = f.trailing_output := by
  obtain ⟨fi, fl, fr, fa, ft, fd, fs, fb, fe, ff⟩ := f
  simp only at h
  subst h
  cases fb with
  | true =>
    exact ⟨⟨fi, fl, fr, fa, ft, fd, true, false, fe, ff⟩,
           by simp [formatByte], rfl, rfl, rfl, rfl, rfl, rfl, rfl, rfl⟩
  | false =>
    by_cases hq : b = C_QUOTE
    · subst hq
      exact ⟨⟨fi, fl, fr, fa, ft, fd, false, false, fe, ff⟩,
             by simp [formatByte], rfl, rfl, rfl, rfl, rfl, rfl, rfl, rfl⟩
    · by_cases hbs : b = C_BACKSLASH
      · subst hbs
        exact ⟨⟨fi, fl, fr, fa, ft, fd, true, true, fe, ff⟩,
               by simp [formatByte, C_BACKSLASH, C_QUOTE],
               rfl, rfl, rfl, rfl, rfl, rfl, rfl, rfl⟩
      · exact ⟨⟨fi, fl, fr, fa, ft, fd, true, false, fe, ff⟩,
               by simp [formatByte, hq, hbs],
               rfl, rfl, rfl, rfl, rfl, rfl, rfl, rfl⟩

/-- Witness for `in_string_byte_inert`: a comma byte inside a string
is passed through verbatim at a concrete in-string state. -/
theorem in_string_byte_inert_witness :
    ∃ f1 : Formatter,
      formatByte { minimizer with in_string := true } C_COMMA = some (f1, [C_COMMA]) ∧
      f1.depth = ({ minimizer with in_string := true } : Formatter).depth ∧
      f1.empty = ({ minimizer with in_string := true } : Formatter).empty ∧
      f1.first = ({ minimizer with in_string := true } : Formatter).first ∧
      f1.indent = ({ minimizer with in_string := true } : Formatter).indent ∧
      f1.line_separator =
        ({ minimizer with in_string := true } : Formatter).line_separator ∧
      f1.record_separator =
        ({ minimizer with in_string := true } : Formatter).record_separator ∧
      f1.after_colon =
        ({ minimizer with in_string := true } : Formatter).after_colon ∧
      f1.trailing_output =
        ({ minimizer with in_string := true } : Formatter).trailing_output :=
  in_string_byte_inert { minimizer with in_string := true } C_COMMA rfl

/-- C10: on empty input the stream formatter emits exactly
`trailing_output` and nothing else; in particular both presets return
the empty output on empty input. -/
theorem empty_input_trailing_output :
    (∀ f : Formatter, format_stream f [] = some f.trailing_output) ∧
    minimize [] = some [] ∧ pretty_print [] = some [] := by
  refine ⟨fun f => ?_, by decide, by decide⟩
  simp [format_stream, format_buf]

end Jsonxf
